import Mathlib

/-!
Verification of `download_artifacts.py` (cverna/download_fedora_container).

The script is shallowly embedded below: strings are modelled as `List Char`,
the HTTP layer as an oracle mapping a URL to an abstract response, the
filesystem as an association list from paths to file contents, and Python
exceptions as `Except`.  Every definition is translated from the source
file; line references are given in the doc comments.
-/

deriving instance DecidableEq for Except

namespace DownloadFedora

/-- Strings of the Python program, modelled as lists of characters. -/
abbrev Str := List Char

/-- Coerce a Lean string literal to the character-list model. -/
def str (s : String) : Str := s.toList

/-- Python `s.endswith(pat)`. -/
def endsWithL (pat s : Str) : Bool := pat.isSuffixOf s

/-- Python `pat in s` (case-sensitive substring containment). -/
def containsSub (s pat : Str) : Bool :=
  (List.range (s.length + 1)).any fun i => pat.isPrefixOf (s.drop i)

/-- Python `s.lower()` (the inputs of interest are ASCII). -/
def toLowerStr (s : Str) : Str := s.map Char.toLower

/-- The `rendered_version` expression of `process_artifact`
(`download_artifacts.py` line 219):
`"rawhide" if version.lower() == "rawhide" else f"f{version}"`. -/
def rendered_version (version : Str) : Str :=
  if toLowerStr version = str "rawhide" then str "rawhide" else 'f' :: version

/-- C9: a version string matching the literal "rawhide" case-insensitively
normalizes to "rawhide", and any other version is prefixed with the fixed
literal "f". -/
theorem c9_version_normalization (v : Str) :
    (toLowerStr v = str "rawhide" → rendered_version v = str "rawhide") ∧
    (toLowerStr v ≠ str "rawhide" → rendered_version v = 'f' :: v) := by
  constructor
  · intro h
    simp [rendered_version, h]
  · intro h
    simp [rendered_version, h]

/-- C9 witness: version "40" renders with label "f40" and version "Rawhide"
renders with label "rawhide". -/
theorem c9_version_normalization_witness :
    rendered_version (str "40") = 'f' :: str "40" ∧
    rendered_version (str "Rawhide") = str "rawhide" :=
  ⟨(c9_version_normalization (str "40")).2 (by decide),
   (c9_version_normalization (str "Rawhide")).1 (by decide)⟩

/-- Python `s.rstrip(cutset)`: remove trailing characters that belong to the
character SET `cutset` (note: `rstrip` treats its argument as a set of
characters, not as a suffix string). -/
def pyRstrip (cutset : Str) (s : Str) : Str :=
  (s.reverse.dropWhile fun c => cutset.contains c).reverse

/-- Python `os.path.split(p)[0]` for POSIX paths: everything before the last
slash, with trailing slashes stripped unless the head consists only of
slashes. -/
def osPathSplitHead (p : Str) : Str :=
  let tl := (p.reverse.takeWhile fun c => c ≠ '/').reverse
  let hd := p.take (p.length - tl.length)
  let stripped := pyRstrip ['/'] hd
  if stripped = [] then hd else stripped

/-- What `decompress_artifact` does after unpacking an artifact
(`download_artifacts.py` lines 228-245): either the path does not end in
`.tar.xz` and nothing happens, or the containing directory is handed to
`process_artifact` for isolation.  The source function contains no recursive
call. -/
inductive DecompressResult where
  | skipped : DecompressResult
  | isolated : Str → DecompressResult
deriving DecidableEq

/-- `decompress_artifact` (`download_artifacts.py` lines 228-245), reduced to
its control decision: when the artifact path ends in ".tar.xz" it computes
`tar_path = artifact_path.rstrip(".xz")`, decompresses and extracts in the
containing directory, deletes the intermediate files, and unconditionally
calls `process_artifact(os.path.split(tar_path)[0], version)`; otherwise it
does nothing. -/
def decompress_artifact (artifact_path : Str) : DecompressResult :=
  if endsWithL (str ".tar.xz") artifact_path then
    let tar_path := pyRstrip (str ".xz") artifact_path
    DecompressResult.isolated (osPathSplitHead tar_path)
  else
    DecompressResult.skipped

/-- C6 counterexample: for a nested artifact whose destination directory
itself ends in the compressed-archive suffix, the extractor does NOT recurse;
it proceeds straight to isolation of that directory. -/
theorem c6_no_recursion_counterexample :
    decompress_artifact (str "out/base.tar.xz/layer.tar.xz") =
      DecompressResult.isolated (str "out/base.tar.xz") ∧
    endsWithL (str ".tar.xz") (str "out/base.tar.xz") = true := by
  decide

/-- C6 amended: extraction is single-pass, not recursive.  An artifact whose
path ends in ".tar.xz" is decompressed and extracted exactly once and the
containing directory is always treated as the image layout and passed to
isolation, regardless of whether that directory itself ends in the
compressed-archive suffix; any other artifact is ignored. -/
theorem c6_single_pass_extraction (p : Str) :
    (endsWithL (str ".tar.xz") p = true →
      decompress_artifact p =
        DecompressResult.isolated (osPathSplitHead (pyRstrip (str ".xz") p))) ∧
    (endsWithL (str ".tar.xz") p = false →
      decompress_artifact p = DecompressResult.skipped) := by
  constructor
  · intro h
    simp [decompress_artifact, h]
  · intro h
    simp [decompress_artifact, h]

/-- C6 witness: a concrete `.tar.xz` artifact is extracted once and its
containing directory is isolated. -/
theorem c6_single_pass_extraction_witness :
    decompress_artifact (str "out/x86_64/fedora.oci.tar.xz") =
      DecompressResult.isolated
        (osPathSplitHead (pyRstrip (str ".xz") (str "out/x86_64/fedora.oci.tar.xz"))) :=
  (c6_single_pass_extraction (str "out/x86_64/fedora.oci.tar.xz")).1 (by decide)

/-- Errors raised by the `httpx` layer that propagate out of the
`handle_http_errors` decorator (`download_artifacts.py` lines 22-68):
a non-404 status error, or a network error. -/
inductive HttpErr where
  | status : Nat → HttpErr
  | network : HttpErr
deriving DecidableEq

/-- The abstract outcome of one HTTP GET of a directory listing: a successful
response whose parsed anchors carry the given `href` targets, a 404, or any
other error. -/
inductive HttpResult where
  | ok : List Str → HttpResult
  | notFound : HttpResult
  | err : HttpErr → HttpResult
deriving DecidableEq

/-- Python `os.path.join(a, b)` for a relative or absolute second component. -/
def osPathJoin (a b : Str) : Str :=
  if b.head? = some '/' then b else a ++ '/' :: b

/-- The predicate of the list comprehension in
`download_artifacts_for_architecture` (`download_artifacts.py` line 95):
`link.get("href").endswith(".tar.xz") and architecture in link.get("href")`. -/
def artifactLinkMatches (architecture href : Str) : Bool :=
  endsWithL (str ".tar.xz") href && containsSub href architecture

/-- `download_artifacts_for_architecture` (`download_artifacts.py` lines
83-97) together with its `handle_http_errors("...", return_on_404=[])`
decorator (lines 22-68): a successful response is filtered down to the links
matching the suffix and architecture and mapped to
`(urljoin(base_url, href), os.path.join(architecture, href))` pairs; a 404
returns the empty list; every other error propagates.  `urljoin` is the
external `urllib` collaborator and is passed in as a parameter. -/
def download_artifacts_for_architecture (urljoin : Str → Str → Str)
    (resp : HttpResult) (base_url architecture : Str) :
    Except HttpErr (List (Str × Str)) :=
  match resp with
  | HttpResult.ok hrefs =>
      Except.ok ((hrefs.filter fun h => artifactLinkMatches architecture h).map
        fun h => (urljoin base_url h, osPathJoin architecture h))
  | HttpResult.notFound => Except.ok []
  | HttpResult.err e => Except.error e

/-- C5: the Index Fetcher keeps exactly the links ending in ".tar.xz" that
contain the architecture token as a case-sensitive substring; an empty match
set yields an empty sequence (not an error); a not-found response yields an
empty sequence; any other error propagates. -/
theorem c5_index_fetcher (urljoin : Str → Str → Str) (base_url architecture : Str) :
    (∀ hrefs, (∀ h ∈ hrefs, artifactLinkMatches architecture h = false) →
      download_artifacts_for_architecture urljoin (HttpResult.ok hrefs) base_url
        architecture = Except.ok []) ∧
    (∀ hrefs links, download_artifacts_for_architecture urljoin
        (HttpResult.ok hrefs) base_url architecture = Except.ok links →
      (∀ h ∈ hrefs, artifactLinkMatches architecture h = true →
        (urljoin base_url h, osPathJoin architecture h) ∈ links) ∧
      (∀ l ∈ links, ∃ h ∈ hrefs, artifactLinkMatches architecture h = true ∧
        l = (urljoin base_url h, osPathJoin architecture h))) ∧
    (download_artifacts_for_architecture urljoin HttpResult.notFound base_url
      architecture = Except.ok []) ∧
    (∀ e, download_artifacts_for_architecture urljoin (HttpResult.err e) base_url
      architecture = Except.error e) := by
  refine ⟨?_, ?_, rfl, fun e => rfl⟩
  · intro hrefs hnone
    have : hrefs.filter (fun h => artifactLinkMatches architecture h) = [] := by
      apply List.filter_eq_nil_iff.mpr
      intro h hm
      simp [hnone h hm]
    simp [download_artifacts_for_architecture, this]
  · intro hrefs links hlinks
    have hl : links = (hrefs.filter fun h => artifactLinkMatches architecture h).map
        (fun h => (urljoin base_url h, osPathJoin architecture h)) := by
      simpa [download_artifacts_for_architecture] using hlinks.symm
    subst hl
    constructor
    · intro h hm hp
      exact List.mem_map_of_mem _ (List.mem_filter.mpr ⟨hm, hp⟩)
    · intro l hlmem
      rcases List.mem_map.mp hlmem with ⟨h, hf, rfl⟩
      rcases List.mem_filter.mp hf with ⟨hm, hp⟩
      exact ⟨h, hm, hp, rfl⟩

/-- C5 witness: with one matching link, one non-matching link and a
wrong-case architecture link, exactly the matching link is kept; a 404
yields an empty result. -/
theorem c5_index_fetcher_witness :
    (∀ h ∈ [str "image-aarch64.tar.xz", str "image-X86_64.tar.xz"],
      artifactLinkMatches (str "x86_64") h = false) ∧
    download_artifacts_for_architecture (fun b h => b ++ h)
      (HttpResult.ok [str "image-aarch64.tar.xz", str "image-X86_64.tar.xz"])
      (str "http://k/") (str "x86_64") = Except.ok [] ∧
    download_artifacts_for_architecture (fun b h => b ++ h)
      HttpResult.notFound (str "http://k/") (str "x86_64") = Except.ok [] := by
  refine ⟨by decide, ?_, ?_⟩
  · exact (c5_index_fetcher (fun b h => b ++ h) (str "http://k/") (str "x86_64")).1
      [str "image-aarch64.tar.xz", str "image-X86_64.tar.xz"] (by decide)
  · exact (c5_index_fetcher (fun b h => b ++ h) (str "http://k/") (str "x86_64")).2.2.1

/-- A proleptic Gregorian calendar date, the model of Python's
`datetime.date`/`datetime.datetime` values used by the script. -/
structure Date where
  year : Int
  month : Nat
  day : Nat
deriving DecidableEq, Repr

/-- Gregorian leap-year rule. -/
def isLeapYear (y : Int) : Bool :=
  y % 4 = 0 && (y % 100 ≠ 0 || y % 400 = 0)

/-- Number of days in a month. -/
def daysInMonth (y : Int) (m : Nat) : Nat :=
  if m = 2 then (if isLeapYear y then 29 else 28)
  else if m = 4 ∨ m = 6 ∨ m = 9 ∨ m = 11 then 30
  else 31

/-- Parsing with `datetime.strptime(date_str, "%Y%m%d")`: eight digits, a
four-digit year, a valid month and a valid day-of-month (`datetime` also
requires `year ≥ MINYEAR = 1`).  Invalid input raises, modelled as `none`. -/
def parseDate8 (s : Str) : Option Date :=
  if s.length = 8 ∧ s.all Char.isDigit then
    let y : Int := Int.ofNat ((s.take 4).foldl (fun a c => a * 10 + (c.toNat - 48)) 0)
    let m : Nat := ((s.drop 4).take 2).foldl (fun a c => a * 10 + (c.toNat - 48)) 0
    let d : Nat := (s.drop 6).foldl (fun a c => a * 10 + (c.toNat - 48)) 0
    if 1 ≤ y ∧ 1 ≤ m ∧ m ≤ 12 ∧ 1 ≤ d ∧ d ≤ daysInMonth y m then
      some ⟨y, m, d⟩
    else none
  else none

/-- One calendar day earlier.  `datetime - timedelta(days=k)` is modelled as
`predDay` iterated `k` times. -/
def predDay (t : Date) : Date :=
  if 2 ≤ t.day then ⟨t.year, t.month, t.day - 1⟩
  else if 2 ≤ t.month then ⟨t.year, t.month - 1, daysInMonth t.year (t.month - 1)⟩
  else ⟨t.year - 1, 12, 31⟩

/-- Chronological strict order on dates (lexicographic on year, month, day). -/
def dateLt (a b : Date) : Prop :=
  a.year < b.year ∨ (a.year = b.year ∧
    (a.month < b.month ∨ (a.month = b.month ∧ a.day < b.day)))

theorem predDay_dateLt (t : Date) : dateLt (predDay t) t := by
  unfold predDay
  split
  · simp only [dateLt, true_and]
    omega
  · split
    · simp only [dateLt, true_and]
      omega
    · simp only [dateLt, true_and]
      omega

theorem dateLt_trans {a b c : Date} (h1 : dateLt a b) (h2 : dateLt b c) :
    dateLt a c := by
  unfold dateLt at *
  omega

theorem iterate_predDay_dateLt (t : Date) : ∀ n, 1 ≤ n → dateLt (predDay^[n] t) t := by
  intro n
  induction n with
  | zero => omega
  | succ k ih =>
    intro _
    rw [Function.iterate_succ_apply']
    rcases Nat.eq_zero_or_pos k with hk | hk
    · subst hk
      simpa using predDay_dateLt t
    · exact dateLt_trans (predDay_dateLt (predDay^[k] t)) (ih hk)

theorem iterate_predDay_strict_anti (t : Date) {j k : Nat} (h : j < k) :
    dateLt (predDay^[k] t) (predDay^[j] t) := by
  have hk : k = (k - j) + j := by omega
  rw [hk, Function.iterate_add_apply]
  exact iterate_predDay_dateLt (predDay^[j] t) (k - j) (by omega)

/-- Decimal rendering of a nonnegative number, zero-padded to width `w`
(the `%Y`, `%m`, `%d` directives of `strftime`). -/
def padNum (w : Nat) (n : Nat) : Str :=
  let ds := (toString n).toList
  List.replicate (w - ds.length) '0' ++ ds

/-- `date.strftime("%Y%m%d")`. -/
def fmtDate (t : Date) : Str :=
  padNum 4 t.year.toNat ++ padNum 2 t.month ++ padNum 2 t.day

/-- `get_previous_date` (`download_artifacts.py` lines 153-159):
`datetime.strptime(date_str, "%Y%m%d") - timedelta(days=days_back)`,
rendered back with `strftime("%Y%m%d")`.  A parse failure raises
(`none`). -/
def get_previous_date (date_str : Str) (days_back : Nat) : Option Str :=
  (parseDate8 date_str).map fun t => fmtDate (predDay^[days_back] t)

/-- Worker for `replaceAll`: scan the input left to right; while `skip > 0`
the characters belong to an already-replaced match and are dropped; at
`skip = 0`, a match of `pat` emits `rep` and schedules the remaining
`pat.length - 1` matched characters for dropping. -/
def replGo (pat rep : Str) : Nat → Str → Str
  | _, [] => []
  | skip + 1, _ :: rest => replGo pat rep skip rest
  | 0, c :: rest =>
      if pat ≠ [] ∧ pat.isPrefixOf (c :: rest) then
        rep ++ replGo pat rep (pat.length - 1) rest
      else
        c :: replGo pat rep 0 rest

/-- Python `s.replace(pat, rep)` for a nonempty pattern: replace every
non-overlapping occurrence, scanning left to right. -/
def replaceAll (pat rep s : Str) : Str := replGo pat rep 0 s

theorem replGo_nil (pat rep : Str) (k : Nat) : replGo pat rep k [] = [] := by
  cases k <;> rfl

theorem replGo_succ (pat rep : Str) (skip : Nat) (c : Char) (rest : Str) :
    replGo pat rep (skip + 1) (c :: rest) = replGo pat rep skip rest := rfl

theorem replGo_zero_cons (pat rep : Str) (c : Char) (rest : Str) :
    replGo pat rep 0 (c :: rest) =
      if pat ≠ [] ∧ pat.isPrefixOf (c :: rest) then
        rep ++ replGo pat rep (pat.length - 1) rest
      else
        c :: replGo pat rep 0 rest := rfl

theorem replGo_skip_drop (pat rep : Str) :
    ∀ (s : Str) (k : Nat), k ≤ s.length →
      replGo pat rep k s = replGo pat rep 0 (s.drop k) := by
  intro s
  induction s with
  | nil =>
    intro k _
    rw [replGo_nil, List.drop_nil, replGo_nil]
  | cons c rest ih =>
    intro k hk
    cases k with
    | zero => rfl
    | succ j =>
      rw [replGo_succ, List.drop_succ_cons]
      exact ih j (by simpa using hk)

theorem replaceAll_nil (pat rep : Str) : replaceAll pat rep [] = [] := rfl

theorem replaceAll_cons_match (pat rep s : Str) (hne : pat ≠ [])
    (hpre : pat.isPrefixOf s = true) :
    replaceAll pat rep s = rep ++ replaceAll pat rep (s.drop pat.length) := by
  cases s with
  | nil =>
    cases pat with
    | nil => exact absurd rfl hne
    | cons a l => simp [List.isPrefixOf] at hpre
  | cons c rest =>
    have hlen : pat.length ≤ rest.length + 1 := by
      have := List.IsPrefix.length_le (List.isPrefixOf_iff_prefix.mp hpre)
      simpa using this
    have hlen' : pat.length - 1 ≤ rest.length := by omega
    have hdrop : rest.drop (pat.length - 1) = (c :: rest).drop pat.length := by
      cases hp : pat with
      | nil => exact absurd hp hne
      | cons a l => simp [hp]
    unfold replaceAll
    rw [replGo_zero_cons, if_pos ⟨hne, hpre⟩,
      replGo_skip_drop pat rep rest (pat.length - 1) hlen', hdrop]

theorem replaceAll_cons_nomatch (pat rep : Str) (c : Char) (rest : Str)
    (h : pat.isPrefixOf (c :: rest) = false) :
    replaceAll pat rep (c :: rest) = c :: replaceAll pat rep rest := by
  unfold replaceAll
  rw [replGo_zero_cons, if_neg]
  intro hc
  have := hc.2
  rw [h] at this
  exact Bool.false_ne_true this

/-- If the pattern occurs nowhere in `s`, `replace` is the identity. -/
theorem replaceAll_no_occ (pat rep : Str) :
    ∀ s : Str, (∀ i, pat.isPrefixOf (s.drop i) = false) →
      replaceAll pat rep s = s := by
  intro s
  induction s with
  | nil => intro _; rfl
  | cons c rest ih =>
    intro hno
    rw [replaceAll_cons_nomatch pat rep c rest (by simpa using hno 0)]
    rw [ih fun i => by simpa using hno (i + 1)]

/-- If the first occurrence of the pattern in `p ++ pat ++ s` is the middle
one and the pattern does not occur in `s`, `replace` rewrites exactly that
occurrence. -/
theorem replaceAll_single (pat rep : Str) (hne : pat ≠ []) :
    ∀ (p s : Str),
      (∀ i, i < p.length → pat.isPrefixOf ((p ++ pat ++ s).drop i) = false) →
      (∀ i, pat.isPrefixOf (s.drop i) = false) →
      replaceAll pat rep (p ++ pat ++ s) = p ++ rep ++ s := by
  intro p
  induction p with
  | nil =>
    intro s _ hs
    have hpre : pat.isPrefixOf (pat ++ s) = true :=
      List.isPrefixOf_iff_prefix.mpr (List.prefix_append pat s)
    rw [List.nil_append, replaceAll_cons_match pat rep (pat ++ s) hne hpre]
    rw [List.drop_left]
    rw [replaceAll_no_occ pat rep s hs]
    rfl
  | cons c p' ih =>
    intro s hp hs
    have h0 : pat.isPrefixOf (c :: (p' ++ pat ++ s)) = false := by
      simpa using hp 0 (by simp)
    have : ((c :: p') ++ pat ++ s) = c :: (p' ++ pat ++ s) := by simp
    rw [this, replaceAll_cons_nomatch pat rep c _ h0]
    rw [ih s (fun i hi => by simpa using hp (i + 1) (by simpa using Nat.succ_lt_succ hi)) hs]
    rfl

/-- `mapM` over `Option`, written out so that its equations are structural. -/
def mapOpt (f : α → Option β) : List α → Option (List β)
  | [] => some []
  | a :: l =>
      match f a, mapOpt f l with
      | some b, some bs => some (b :: bs)
      | _, _ => none

theorem mapOpt_eq_map (f : α → Option β) (g : α → β) :
    ∀ l : List α, (∀ a ∈ l, f a = some (g a)) → mapOpt f l = some (l.map g) := by
  intro l
  induction l with
  | nil => intro _; rfl
  | cons a l ih =>
    intro h
    have ha := h a (List.mem_cons_self a l)
    have hl := ih fun b hb => h b (List.mem_cons_of_mem a hb)
    simp [mapOpt, ha, hl]

theorem mapOpt_length (f : α → Option β) :
    ∀ (l : List α) (bs : List β), mapOpt f l = some bs → bs.length = l.length := by
  intro l
  induction l with
  | nil =>
    intro bs h
    simp [mapOpt] at h
    simp [← h]
  | cons a l ih =>
    intro bs h
    simp only [mapOpt] at h
    cases hfa : f a with
    | none => rw [hfa] at h; simp at h
    | some b =>
      rw [hfa] at h
      cases hml : mapOpt f l with
      | none => rw [hml] at h; simp at h
      | some bs' =>
        rw [hml] at h
        simp at h
        subst h
        simp [ih bs' hml]

/-- One loop iteration of `generate_url_variants`
(`download_artifacts.py` lines 171-178): pick the date pattern from the base
URL and textually substitute the shifted date. -/
def mkVariant (base_url date_str previous_date : Str) : Str :=
  if containsSub base_url (str ".n.0/images/") then
    replaceAll (date_str ++ str ".n.0") (previous_date ++ str ".n.0") base_url
  else
    replaceAll (date_str ++ str ".0") (previous_date ++ str ".0") base_url

/-- `generate_url_variants` (`download_artifacts.py` lines 162-180): the
original URL followed by one substituted URL per day shifted backward, for
`days_back = 1 .. max_days_back`.  `get_previous_date` raises on an
unparsable `date_str` (only when the loop runs at least once), modelled by
`none`. -/
def generate_url_variants (base_url date_str : Str) (max_days_back : Nat) :
    Option (List Str) :=
  (mapOpt (fun k => (get_previous_date date_str (k + 1)).map
      fun pd => mkVariant base_url date_str pd)
    (List.range max_days_back)).map
    fun variants => base_url :: variants

theorem containsSub_false_isPrefixOf (s pat : Str) (hne : pat ≠ [])
    (h : containsSub s pat = false) :
    ∀ i, pat.isPrefixOf (s.drop i) = false := by
  intro i
  by_cases hi : i ≤ s.length
  · cases hb : pat.isPrefixOf (s.drop i) with
    | false => rfl
    | true =>
      have : containsSub s pat = true := by
        unfold containsSub
        exact List.any_eq_true.mpr ⟨i, List.mem_range.mpr (by omega), hb⟩
      rw [h] at this
      exact absurd this Bool.false_ne_true
  · have hdrop : s.drop i = [] := List.drop_eq_nil_of_le (by omega)
    rw [hdrop]
    cases pat with
    | nil => exact absurd rfl hne
    | cons a l => rfl

/-- When the date string parses, `generate_url_variants` succeeds and its
output is the base URL followed by one substituted URL per backward day. -/
theorem generate_url_variants_eq (base d : Str) (n : Nat) (t : Date)
    (hp : parseDate8 d = some t) :
    generate_url_variants base d n =
      some (base :: (List.range n).map
        fun k => mkVariant base d (fmtDate (predDay^[k + 1] t))) := by
  unfold generate_url_variants
  rw [mapOpt_eq_map _ (fun k => mkVariant base d (fmtDate (predDay^[k + 1] t)))
    (List.range n) (fun a _ => by simp [get_previous_date, hp])]
  rfl

/-- C4: for every base URL embedding the date token in one of the two
recognized patterns and every `max_days_back`, the URL Variant Generator
produces exactly `max_days_back + 1` URLs, strictly ordered newest-to-oldest,
each differing from the base only in the date token; in particular, for a
base URL containing date `20240101` in the snapshot pattern and 2 days back,
the URLs contain `20240101`, `20231231`, `20231230` in that order. -/
theorem c4_url_variant_generator :
    (∀ base d n urls, generate_url_variants base d n = some urls →
      urls.length = n + 1) ∧
    (∀ d t k, parseDate8 d = some t →
      get_previous_date d k = some (fmtDate (predDay^[k] t))) ∧
    (∀ (t : Date) (j k : Nat), j < k →
      dateLt (predDay^[k] t) (predDay^[j] t)) ∧
    (∀ p s d n t urls, parseDate8 d = some t →
      containsSub (p ++ (d ++ str ".0") ++ s) (str ".n.0/images/") = false →
      (∀ i, i < p.length →
        (d ++ str ".0").isPrefixOf ((p ++ (d ++ str ".0") ++ s).drop i) = false) →
      containsSub s (d ++ str ".0") = false →
      generate_url_variants (p ++ (d ++ str ".0") ++ s) d n = some urls →
      urls[0]? = some (p ++ (d ++ str ".0") ++ s) ∧
      ∀ k, k < n →
        urls[k + 1]? = some (p ++ (fmtDate (predDay^[k + 1] t) ++ str ".0") ++ s)) ∧
    (∀ p s d n t urls, parseDate8 d = some t →
      containsSub (p ++ (d ++ str ".n.0") ++ s) (str ".n.0/images/") = true →
      (∀ i, i < p.length →
        (d ++ str ".n.0").isPrefixOf ((p ++ (d ++ str ".n.0") ++ s).drop i) = false) →
      containsSub s (d ++ str ".n.0") = false →
      generate_url_variants (p ++ (d ++ str ".n.0") ++ s) d n = some urls →
      urls[0]? = some (p ++ (d ++ str ".n.0") ++ s) ∧
      ∀ k, k < n →
        urls[k + 1]? = some (p ++ (fmtDate (predDay^[k + 1] t) ++ str ".n.0") ++ s)) ∧
    generate_url_variants
      (str "https://kojipkgs.fedoraproject.org/packages/Fedora-Container-Base-Generic/40/20240101.0/images/")
      (str "20240101") 2 =
      some
        [str "https://kojipkgs.fedoraproject.org/packages/Fedora-Container-Base-Generic/40/20240101.0/images/",
         str "https://kojipkgs.fedoraproject.org/packages/Fedora-Container-Base-Generic/40/20231231.0/images/",
         str "https://kojipkgs.fedoraproject.org/packages/Fedora-Container-Base-Generic/40/20231230.0/images/"] := by
  refine ⟨?_, ?_, ?_, ?_, ?_, ?_⟩
  · intro base d n urls h
    unfold generate_url_variants at h
    cases hm : mapOpt (fun k => (get_previous_date d (k + 1)).map
        fun pd => mkVariant base d pd) (List.range n) with
    | none => rw [hm] at h; simp at h
    | some vs =>
      rw [hm] at h
      simp at h
      have := mapOpt_length _ (List.range n) vs hm
      rw [← h]
      simp [this]
  · intro d t k hp
    simp [get_previous_date, hp]
  · intro t j k h
    exact iterate_predDay_strict_anti t h
  · intro p s d n t urls hp hn hfirst hs hgen
    have hne : (d ++ str ".0") ≠ [] := by simp [str]
    rw [generate_url_variants_eq _ d n t hp] at hgen
    have hurls : urls = (p ++ (d ++ str ".0") ++ s) :: (List.range n).map
        fun k => mkVariant (p ++ (d ++ str ".0") ++ s) d
          (fmtDate (predDay^[k + 1] t)) := by
      exact (Option.some_injective _ hgen).symm
    subst hurls
    refine ⟨by simp, ?_⟩
    intro k hk
    have hcond : ¬(containsSub (p ++ (d ++ str ".0") ++ s) (str ".n.0/images/") = true) := by
      rw [hn]
      exact Bool.false_ne_true
    have hrepl : mkVariant (p ++ (d ++ str ".0") ++ s) d
        (fmtDate (predDay^[k + 1] t)) =
        p ++ (fmtDate (predDay^[k + 1] t) ++ str ".0") ++ s := by
      unfold mkVariant
      rw [if_neg hcond]
      exact replaceAll_single (d ++ str ".0") _ hne p s hfirst
        (containsSub_false_isPrefixOf s _ hne hs)
    simp only [List.getElem?_cons_succ, List.getElem?_map,
      List.getElem?_range hk, Option.map_some']
    rw [hrepl]
  · intro p s d n t urls hp hn hfirst hs hgen
    have hne : (d ++ str ".n.0") ≠ [] := by simp [str]
    rw [generate_url_variants_eq _ d n t hp] at hgen
    have hurls : urls = (p ++ (d ++ str ".n.0") ++ s) :: (List.range n).map
        fun k => mkVariant (p ++ (d ++ str ".n.0") ++ s) d
          (fmtDate (predDay^[k + 1] t)) := by
      exact (Option.some_injective _ hgen).symm
    subst hurls
    refine ⟨by simp, ?_⟩
    intro k hk
    have hrepl : mkVariant (p ++ (d ++ str ".n.0") ++ s) d
        (fmtDate (predDay^[k + 1] t)) =
        p ++ (fmtDate (predDay^[k + 1] t) ++ str ".n.0") ++ s := by
      unfold mkVariant
      rw [if_pos hn]
      exact replaceAll_single (d ++ str ".n.0") _ hne p s hfirst
        (containsSub_false_isPrefixOf s _ hne hs)
    simp only [List.getElem?_cons_succ, List.getElem?_map,
      List.getElem?_range hk, Option.map_some']
    rw [hrepl]
  · decide

/-- C4 witness: the snapshot-pattern clause of the theorem instantiated on a
concrete base URL with one day back yields the URL for the previous date. -/
theorem c4_url_variant_generator_witness :
    [str "https://k/20240101.0/images/", str "https://k/20231231.0/images/"][0 + 1]? =
      some (str "https://k/" ++
        (fmtDate (predDay^[0 + 1] (Date.mk 2024 1 1)) ++ str ".0") ++ str "/images/") :=
  (c4_url_variant_generator.2.2.2.1 (str "https://k/") (str "/images/")
    (str "20240101") 1 (Date.mk 2024 1 1)
    [str "https://k/20240101.0/images/", str "https://k/20231231.0/images/"]
    (by decide) (by decide) (by decide) (by decide) (by decide)).2 0 (by decide)

/-- The `for`/`try`/`except` loop of `download_artifacts_with_retry`
(`download_artifacts.py` lines 125-140), instrumented with the list of URLs
it actually probes: a variant with a non-empty artifact list is returned at
once; an empty result or ANY exception (`except Exception: continue`) moves
on to the next variant; an exhausted list returns the empty result. -/
def locateLoop (F : Str → Except HttpErr (List (Str × Str))) :
    List Str → List (Str × Str) × List Str
  | [] => ([], [])
  | u :: rest =>
      match F u with
      | Except.ok files =>
          if files.isEmpty then
            let r := locateLoop F rest
            (r.1, u :: r.2)
          else
            (files, [u])
      | Except.error _ =>
          let r := locateLoop F rest
          (r.1, u :: r.2)

/-- `download_artifacts_with_retry` (`download_artifacts.py` lines 100-140),
instrumented with the probed URLs.  With `no_retry` it performs exactly one
fetch of the base URL, propagating its outcome (including errors); otherwise
it walks the URL variants with `locateLoop`, whose result is always `ok`.
The HTTP layer is the oracle `http`, and the fetch of one URL is the embedded
`download_artifacts_for_architecture`.  `none` models the `strptime` failure
raised by `generate_url_variants` on an unparsable date. -/
def download_artifacts_with_retry (urljoin : Str → Str → Str)
    (http : Str → HttpResult) (base_url architecture today : Str)
    (max_days_back : Nat) (no_retry : Bool) :
    Option (Except HttpErr (List (Str × Str)) × List Str) :=
  let F := fun u => download_artifacts_for_architecture urljoin (http u) u architecture
  if no_retry then
    some (F base_url, [base_url])
  else
    (generate_url_variants base_url today max_days_back).map fun variants =>
      let r := locateLoop F variants
      (Except.ok r.1, r.2)

theorem locateLoop_all_empty (F : Str → Except HttpErr (List (Str × Str))) :
    ∀ l : List Str, (∀ u ∈ l, F u = Except.ok []) →
      locateLoop F l = ([], l) := by
  intro l
  induction l with
  | nil => intro _; rfl
  | cons u rest ih =>
    intro h
    have hu := h u (List.mem_cons_self u rest)
    have hr := ih fun v hv => h v (List.mem_cons_of_mem u hv)
    simp [locateLoop, hu, hr]

theorem locateLoop_first_nonempty (F : Str → Except HttpErr (List (Str × Str))) :
    ∀ (l : List Str) (k : Nat) (uk : Str) (files : List (Str × Str)),
      l[k]? = some uk →
      (∀ u ∈ l.take k, F u = Except.ok []) →
      F uk = Except.ok files → files ≠ [] →
      locateLoop F l = (files, l.take (k + 1)) := by
  intro l
  induction l with
  | nil =>
    intro k uk files hk
    simp at hk
  | cons u rest ih =>
    intro k uk files hk hbefore huk hne
    cases k with
    | zero =>
      simp at hk
      subst hk
      have : ¬files.isEmpty := by
        cases files with
        | nil => exact absurd rfl hne
        | cons a l => simp
      simp [locateLoop, huk, this]
    | succ k' =>
      have h0 : F u = Except.ok [] := by
        apply hbefore
        simp
      have hrec := ih k' uk files (by simpa using hk)
        (fun v hv => hbefore v (by simp [hv])) huk hne
      simp [locateLoop, h0, hrec]

/-- C1: with retry enabled, the locator probes the URL variants in order and
returns the artifact list of the first variant yielding a non-empty list,
probing no later variant; if every variant yields an empty list, it returns
the empty list after probing the full variant list. -/
theorem c1_locate_first_nonempty (urljoin : Str → Str → Str)
    (http : Str → HttpResult) (base_url architecture today : Str)
    (max_days_back : Nat) (variants : List Str)
    (hv : generate_url_variants base_url today max_days_back = some variants) :
    (∀ (k : Nat) (uk : Str) (files : List (Str × Str)),
      variants[k]? = some uk →
      (∀ u ∈ variants.take k,
        download_artifacts_for_architecture urljoin (http u) u architecture =
          Except.ok []) →
      download_artifacts_for_architecture urljoin (http uk) uk architecture =
        Except.ok files →
      files ≠ [] →
      download_artifacts_with_retry urljoin http base_url architecture today
          max_days_back false =
        some (Except.ok files, variants.take (k + 1))) ∧
    ((∀ u ∈ variants,
      download_artifacts_for_architecture urljoin (http u) u architecture =
        Except.ok []) →
      download_artifacts_with_retry urljoin http base_url architecture today
          max_days_back false =
        some (Except.ok [], variants)) := by
  constructor
  · intro k uk files hk hbefore huk hne
    unfold download_artifacts_with_retry
    rw [hv]
    simp only [Option.map_some', if_neg (Bool.false_ne_true)]
    rw [locateLoop_first_nonempty _ variants k uk files hk hbefore huk hne]
  · intro hall
    unfold download_artifacts_with_retry
    rw [hv]
    simp only [Option.map_some', if_neg (Bool.false_ne_true)]
    rw [locateLoop_all_empty _ variants hall]

/-- C1 witness: the first variant 404s (empty), the second matches one
artifact; the locator returns the second variant's artifact and probes
exactly the first two variants. -/
theorem c1_locate_first_nonempty_witness :
    download_artifacts_with_retry (fun b h => b ++ h)
      (fun u => if u = str "k/20240101.0/images/" then HttpResult.notFound
        else HttpResult.ok [str "Fedora-x86_64.oci.tar.xz"])
      (str "k/20240101.0/images/") (str "x86_64") (str "20240101") 2 false =
      some (Except.ok
        [(str "k/20231231.0/images/" ++ str "Fedora-x86_64.oci.tar.xz",
          str "x86_64" ++ '/' :: str "Fedora-x86_64.oci.tar.xz")],
        List.take (1 + 1)
          [str "k/20240101.0/images/", str "k/20231231.0/images/",
           str "k/20231230.0/images/"]) :=
  (c1_locate_first_nonempty (fun b h => b ++ h)
    (fun u => if u = str "k/20240101.0/images/" then HttpResult.notFound
      else HttpResult.ok [str "Fedora-x86_64.oci.tar.xz"])
    (str "k/20240101.0/images/") (str "x86_64") (str "20240101") 2
    [str "k/20240101.0/images/", str "k/20231231.0/images/",
     str "k/20231230.0/images/"]
    (by decide)).1 1 (str "k/20231231.0/images/")
    [(str "k/20231231.0/images/" ++ str "Fedora-x86_64.oci.tar.xz",
      str "x86_64" ++ '/' :: str "Fedora-x86_64.oci.tar.xz")]
    (by decide)
    (by decide)
    (by decide)
    (by decide)

/-- C2 counterexample: the fetch of the newest variant fails with a
non-recoverable network error, yet the locate operation does NOT abort: the
next older date variant is probed and its artifacts are returned. -/
theorem c2_nonrecoverable_abort_counterexample :
    download_artifacts_with_retry (fun b h => b ++ h)
      (fun u => if u = str "k/20240101.0/images/" then HttpResult.err HttpErr.network
        else HttpResult.ok [str "Fedora-x86_64.oci.tar.xz"])
      (str "k/20240101.0/images/") (str "x86_64") (str "20240101") 1 false =
      some (Except.ok
        [(str "k/20231231.0/images/" ++ str "Fedora-x86_64.oci.tar.xz",
          str "x86_64" ++ '/' :: str "Fedora-x86_64.oci.tar.xz")],
        [str "k/20240101.0/images/", str "k/20231231.0/images/"]) := by
  decide

/-- C2 amended: with retry enabled, ANY error from an Index Fetcher call —
including non-recoverable transport and non-404 status errors — is caught by
the `except Exception: continue` clause, and the locator moves on to the next
older date variant; the retry path never propagates an error. -/
theorem c2_nonrecoverable_continues (urljoin : Str → Str → Str)
    (http : Str → HttpResult) (architecture : Str) :
    (∀ (u : Str) (rest : List Str) (e : HttpErr),
      download_artifacts_for_architecture urljoin (http u) u architecture =
        Except.error e →
      locateLoop (fun v => download_artifacts_for_architecture urljoin (http v) v
          architecture) (u :: rest) =
        ((locateLoop (fun v => download_artifacts_for_architecture urljoin (http v) v
          architecture) rest).1,
         u :: (locateLoop (fun v => download_artifacts_for_architecture urljoin
          (http v) v architecture) rest).2)) ∧
    (∀ (base_url today : Str) (max_days_back : Nat)
        (r : Except HttpErr (List (Str × Str)) × List Str),
      download_artifacts_with_retry urljoin http base_url architecture today
          max_days_back false = some r →
      ∃ files, r.1 = Except.ok files) := by
  constructor
  · intro u rest e he
    simp [locateLoop, he]
  · intro base_url today max_days_back r hr
    unfold download_artifacts_with_retry at hr
    rw [if_neg Bool.false_ne_true] at hr
    cases hg : generate_url_variants base_url today max_days_back with
    | none => rw [hg] at hr; simp at hr
    | some variants =>
      rw [hg] at hr
      simp at hr
      exact ⟨_, by rw [← hr]⟩

/-- C2 amended witness: a network error on the head variant makes the loop
continue with the (empty) tail, returning the empty result rather than
aborting. -/
theorem c2_nonrecoverable_continues_witness :
    locateLoop (fun v => download_artifacts_for_architecture (fun b h => b ++ h)
        ((fun _ => HttpResult.err HttpErr.network) v) v (str "x86_64"))
      [str "k/20240101.0/images/"] =
      ((locateLoop (fun v => download_artifacts_for_architecture (fun b h => b ++ h)
          ((fun _ => HttpResult.err HttpErr.network) v) v (str "x86_64")) []).1,
       str "k/20240101.0/images/" ::
        (locateLoop (fun v => download_artifacts_for_architecture (fun b h => b ++ h)
          ((fun _ => HttpResult.err HttpErr.network) v) v (str "x86_64")) []).2) :=
  (c2_nonrecoverable_continues (fun b h => b ++ h)
    (fun _ => HttpResult.err HttpErr.network) (str "x86_64")).1
    (str "k/20240101.0/images/") [] HttpErr.network (by decide)

/-- Events of one pipeline run, as seen by the coordinator loop of `main`
(`download_artifacts.py` lines 289-297): a submitted download finishing
(successfully or not), and the beginning of extraction
(`decompress_artifact`) for a downloaded artifact. -/
inductive Ev where
  | finished : Str → Bool → Ev
  | extractionStart : Str → Ev
deriving DecidableEq

/-- The event trace of the `for future in as_completed(...)` loop of `main`
(`download_artifacts.py` lines 289-297), given the order in which the
submitted downloads complete: `as_completed` yields each future as soon as it
completes, and the loop body immediately runs `decompress_artifact` on a
successful download — while the downloads later in the completion order are
still pending. -/
def coordinator (results : List (Str × Bool)) : List Ev :=
  results.flatMap fun r =>
    Ev.finished r.1 r.2 :: (if r.2 then [Ev.extractionStart r.1] else [])

/-- Barrier synchronization: no download finishes after any extraction has
begun, i.e. every extraction begins only once all downloads have finished. -/
def barrierHolds : List Ev → Bool
  | [] => true
  | Ev.finished _ _ :: rest => barrierHolds rest
  | Ev.extractionStart _ :: rest =>
      (rest.all fun e => match e with
        | Ev.finished _ _ => false
        | _ => true) && barrierHolds rest

/-- C3 counterexample: with two successful downloads, extraction of the first
begins while the second download is still pending — the coordinator trace
violates barrier synchronization. -/
theorem c3_barrier_counterexample :
    barrierHolds (coordinator
      [(str "x86_64/a.tar.xz", true), (str "aarch64/b.tar.xz", true)]) = false ∧
    coordinator [(str "x86_64/a.tar.xz", true), (str "aarch64/b.tar.xz", true)] =
      [Ev.finished (str "x86_64/a.tar.xz") true,
       Ev.extractionStart (str "x86_64/a.tar.xz"),
       Ev.finished (str "aarch64/b.tar.xz") true,
       Ev.extractionStart (str "aarch64/b.tar.xz")] := by
  decide

theorem barrierHolds_append_false (ys : List Ev) :
    ∀ xs : List Ev, (∃ n, Ev.extractionStart n ∈ xs) →
      (∃ m ok, Ev.finished m ok ∈ ys) →
      barrierHolds (xs ++ ys) = false := by
  intro xs
  induction xs with
  | nil =>
    rintro ⟨n, hn⟩
    simp at hn
  | cons e rest ih =>
    rintro ⟨n, hn⟩ hy
    cases e with
    | finished m ok =>
      have hn' : Ev.extractionStart n ∈ rest := by
        rcases List.mem_cons.mp hn with h | h
        · exact absurd h (by simp)
        · exact h
      show barrierHolds (rest ++ ys) = false
      exact ih ⟨n, hn'⟩ hy
    | extractionStart n' =>
      rcases hy with ⟨m, ok, hm⟩
      have hall : ((rest ++ ys).all fun e => match e with
          | Ev.finished _ _ => false
          | _ => true) = false := by
        cases hb : ((rest ++ ys).all fun e => match e with
            | Ev.finished _ _ => false
            | _ => true) with
        | false => rfl
        | true =>
          have := List.all_eq_true.mp hb (Ev.finished m ok)
            (List.mem_append_right rest hm)
          simp at this
      show (((rest ++ ys).all fun e => match e with
          | Ev.finished _ _ => false
          | _ => true) && barrierHolds (rest ++ ys)) = false
      rw [hall]
      rfl

/-- C3 amended: the coordinator is a per-completion pipeline, not a barrier:
extraction of each successfully downloaded artifact begins immediately after
that artifact's own download finishes, and whenever a successful download is
followed by any further download in the completion order, barrier
synchronization fails. -/
theorem c3_pipeline_not_barrier :
    (∀ (results : List (Str × Bool)) (n : Str), (n, true) ∈ results →
      List.Sublist [Ev.finished n true, Ev.extractionStart n]
        (coordinator results)) ∧
    (∀ (pre : List (Str × Bool)) (n : Str) (q : Str × Bool)
        (post : List (Str × Bool)),
      barrierHolds (coordinator (pre ++ (n, true) :: q :: post)) = false) := by
  constructor
  · intro results
    induction results with
    | nil =>
      intro n hn
      simp at hn
    | cons r rest ih =>
      intro n hn
      rcases List.mem_cons.mp hn with h | h
      · subst h
        show List.Sublist [Ev.finished n true, Ev.extractionStart n]
          ([Ev.finished n true, Ev.extractionStart n] ++ coordinator rest)
        exact List.sublist_append_left _ _
      · exact (ih n h).trans
          (by
            show List.Sublist (coordinator rest)
              ((Ev.finished r.1 r.2 :: (if r.2 then [Ev.extractionStart r.1] else []))
                ++ coordinator rest)
            exact List.sublist_append_right _ _)
  · intro pre n q post
    have hsplit : coordinator (pre ++ (n, true) :: q :: post) =
        (coordinator pre ++ [Ev.finished n true, Ev.extractionStart n]) ++
          coordinator (q :: post) := by
      simp [coordinator, List.flatMap_append, List.flatMap_cons]
    rw [hsplit]
    apply barrierHolds_append_false
    · exact ⟨n, by simp⟩
    · exact ⟨q.1, q.2, by simp [coordinator, List.flatMap_cons]⟩

/-- C3 amended witness: with one successful download, the ordered pair
(download finished, extraction started) occurs in the trace, and with a
success followed by another task the barrier fails. -/
theorem c3_pipeline_not_barrier_witness :
    List.Sublist
      [Ev.finished (str "a.tar.xz") true, Ev.extractionStart (str "a.tar.xz")]
      (coordinator [(str "a.tar.xz", true)]) ∧
    barrierHolds (coordinator
      ([] ++ (str "a.tar.xz", true) :: (str "b.tar.xz", false) :: [])) = false :=
  ⟨c3_pipeline_not_barrier.1 [(str "a.tar.xz", true)] (str "a.tar.xz") (by decide),
   c3_pipeline_not_barrier.2 [] (str "a.tar.xz") (str "b.tar.xz", false) []⟩

/-- Python `s.split(sep)` for a one-character separator. -/
def splitOnChar (sep : Char) : Str → List Str
  | [] => [[]]
  | c :: rest =>
      match splitOnChar sep rest with
      | [] => [[c]]
      | g :: gs => if c = sep then [] :: g :: gs else (c :: g) :: gs

/-- Python `s.split(":")[1]`: the second group of the colon-split, `none`
when indexing raises. -/
def splitColonGet1 (s : Str) : Option Str := (splitOnChar ':' s)[1]?

/-- A descriptor of the OCI index/manifest JSON: only its digest string is
consumed by the script. -/
structure OCIDescriptor where
  digest : Str
deriving DecidableEq

/-- The parsed `index.json`: a list of manifest descriptors. -/
structure IndexData where
  manifests : List OCIDescriptor
deriving DecidableEq

/-- A parsed manifest blob: a list of layer descriptors. -/
structure ManifestData where
  layers : List OCIDescriptor
deriving DecidableEq

/-- Contents of one file of the extracted image layout. -/
inductive FileData where
  | idx : IndexData → FileData
  | manifest : ManifestData → FileData
  | blob : Str → FileData
deriving DecidableEq

/-- The extracted directory tree: an association list from paths to file
contents. -/
abbrev FS := List (Str × FileData)

/-- Filesystem lookup by exact path. -/
def fsLookup (fs : FS) (p : Str) : Option FileData :=
  (fs.find? fun e => e.1 = p).map Prod.snd

/-- Errors of the isolation chain: a missing file (`FileNotFoundError`), a
file whose JSON is not of the expected shape, or an index error from `[0]` /
`split(":")[1]`. -/
inductive IsoErr where
  | missingFile : Str → IsoErr
  | badJson : Str → IsoErr
  | indexError : IsoErr
deriving DecidableEq

/-- `get_digest_from_index` (`download_artifacts.py` lines 143-146): open the
index file, parse it, and return `index_data["manifests"][0]["digest"].split(":")[1]`. -/
def get_digest_from_index (fs : FS) (index_path : Str) : Except IsoErr Str :=
  match fsLookup fs index_path with
  | none => Except.error (IsoErr.missingFile index_path)
  | some (FileData.idx i) =>
      match i.manifests with
      | [] => Except.error IsoErr.indexError
      | m :: _ =>
          match splitColonGet1 m.digest with
          | none => Except.error IsoErr.indexError
          | some hex => Except.ok hex
  | some _ => Except.error (IsoErr.badJson index_path)

/-- `get_tar_name` (`download_artifacts.py` lines 183-185):
`f"fedora-{current_date}.tar"`, with the current date a parameter. -/
def get_tar_name (today : Str) : Str := str "fedora-" ++ today ++ str ".tar"

/-- `copy_layer_blob_to_tar` (`download_artifacts.py` lines 188-195): read
the manifest at `blobs/sha256/<digest>`, take
`manifest_data["layers"][0]["digest"].split(":")[1]`, and copy the blob at
`blobs/sha256/<layer hex>` to `<extracted_path>/<tar_name>`.  The result is
the (source, destination) pair of the copy. -/
def copy_layer_blob_to_tar (fs : FS) (extracted_path digest tar_name : Str) :
    Except IsoErr (Str × Str) :=
  let manifest_path := extracted_path ++ str "/blobs/sha256/" ++ digest
  match fsLookup fs manifest_path with
  | none => Except.error (IsoErr.missingFile manifest_path)
  | some (FileData.manifest m) =>
      match m.layers with
      | [] => Except.error IsoErr.indexError
      | l :: _ =>
          match splitColonGet1 l.digest with
          | none => Except.error IsoErr.indexError
          | some layerHex =>
              let layer_path := extracted_path ++ str "/blobs/sha256/" ++ layerHex
              match fsLookup fs layer_path with
              | none => Except.error (IsoErr.missingFile layer_path)
              | some _ => Except.ok (layer_path, extracted_path ++ '/' :: tar_name)
  | some _ => Except.error (IsoErr.badJson manifest_path)

/-- The isolation portion of `process_artifact`
(`download_artifacts.py` lines 209-212): chain `get_digest_from_index` on
`<extracted_path>/index.json`, `get_tar_name` and `copy_layer_blob_to_tar`. -/
def isolate_layer (fs : FS) (extracted_path today : Str) :
    Except IsoErr (Str × Str) :=
  match get_digest_from_index fs (extracted_path ++ str "/index.json") with
  | Except.error e => Except.error e
  | Except.ok digest =>
      copy_layer_blob_to_tar fs extracted_path digest (get_tar_name today)

/-- C7: isolation takes the digest of the FIRST manifest entry of the index,
reads that manifest from the blob store, takes the digest of its FIRST layer
entry, and copies that blob to `<extracted_path>/fedora-<today>.tar`; the
trailing manifest and layer entries never influence the result. -/
theorem c7_isolation_first_only (fs : FS) (extracted_path today d1 d2 h1 h2 : Str)
    (restM restL : List OCIDescriptor) (m : ManifestData) (f : FileData)
    (hidx : fsLookup fs (extracted_path ++ str "/index.json") =
      some (FileData.idx ⟨⟨d1⟩ :: restM⟩))
    (hd1 : splitColonGet1 d1 = some h1)
    (hman : fsLookup fs (extracted_path ++ str "/blobs/sha256/" ++ h1) =
      some (FileData.manifest m))
    (hm : m.layers = ⟨d2⟩ :: restL)
    (hd2 : splitColonGet1 d2 = some h2)
    (hblob : fsLookup fs (extracted_path ++ str "/blobs/sha256/" ++ h2) = some f) :
    isolate_layer fs extracted_path today =
      Except.ok (extracted_path ++ str "/blobs/sha256/" ++ h2,
        extracted_path ++ '/' :: (str "fedora-" ++ today ++ str ".tar")) := by
  simp only [isolate_layer, get_digest_from_index, copy_layer_blob_to_tar,
    get_tar_name, hidx, hd1, hman, hm, hd2, hblob]

/-- C7 witness: a layout with TWO manifests and TWO layers still isolates
exactly the first of each, into the date-stamped tar name. -/
theorem c7_isolation_first_only_witness :
    isolate_layer
      [(str "img/index.json",
        FileData.idx ⟨[⟨str "sha256:aaa"⟩, ⟨str "sha256:zzz"⟩]⟩),
       (str "img/blobs/sha256/aaa",
        FileData.manifest ⟨[⟨str "sha256:bbb"⟩, ⟨str "sha256:yyy"⟩]⟩),
       (str "img/blobs/sha256/bbb", FileData.blob (str "layerbytes"))]
      (str "img") (str "20240101") =
      Except.ok (str "img" ++ str "/blobs/sha256/" ++ str "bbb",
        str "img" ++ '/' :: (str "fedora-" ++ str "20240101" ++ str ".tar")) :=
  c7_isolation_first_only
    [(str "img/index.json",
      FileData.idx ⟨[⟨str "sha256:aaa"⟩, ⟨str "sha256:zzz"⟩]⟩),
     (str "img/blobs/sha256/aaa",
      FileData.manifest ⟨[⟨str "sha256:bbb"⟩, ⟨str "sha256:yyy"⟩]⟩),
     (str "img/blobs/sha256/bbb", FileData.blob (str "layerbytes"))]
    (str "img") (str "20240101") (str "sha256:aaa") (str "sha256:bbb")
    (str "aaa") (str "bbb") [⟨str "sha256:zzz"⟩] [⟨str "sha256:yyy"⟩]
    ⟨[⟨str "sha256:bbb"⟩, ⟨str "sha256:yyy"⟩]⟩ (FileData.blob (str "layerbytes"))
    (by decide) (by decide) (by decide) (by decide) (by decide) (by decide)

theorem splitOnChar_no_sep (sep : Char) :
    ∀ s : Str, s.all (fun c => c ≠ sep) = true → splitOnChar sep s = [s] := by
  intro s
  induction s with
  | nil => intro _; rfl
  | cons c rest ih =>
    intro h
    have hc : ¬(c = sep) := by
      have := List.all_eq_true.mp h c (List.mem_cons_self c rest)
      simpa using this
    have hr := ih (List.all_eq_true.mpr fun x hx =>
      List.all_eq_true.mp h x (List.mem_cons_of_mem c hx))
    simp [splitOnChar, hr, hc]

theorem splitOnChar_append_sep (sep : Char) :
    ∀ (a b : Str), a.all (fun c => c ≠ sep) = true →
      splitOnChar sep (a ++ sep :: b) = a :: splitOnChar sep b := by
  intro a
  induction a with
  | nil =>
    intro b _
    cases hb : splitOnChar sep b with
    | nil =>
      exfalso
      cases b with
      | nil => simp [splitOnChar] at hb
      | cons x xs =>
        simp only [splitOnChar] at hb
        cases hsb : splitOnChar sep xs with
        | nil => rw [hsb] at hb; simp at hb
        | cons g gs =>
          rw [hsb] at hb
          by_cases hx : x = sep <;> simp [hx] at hb
    | cons g gs => simp [splitOnChar, hb]
  | cons c a' ih =>
    intro b h
    have hc : ¬(c = sep) := by
      have := List.all_eq_true.mp h c (List.mem_cons_self c a')
      simpa using this
    have hr := ih b (List.all_eq_true.mpr fun x hx =>
      List.all_eq_true.mp h x (List.mem_cons_of_mem c hx))
    simp [splitOnChar, hr, hc]

/-- C10: the blob paths consulted by isolation are always
`blobs/sha256/<hex>` where `<hex>` is the text after the first ':' of the
digest string; the algorithm component before the ':' is never consulted, so
a layout whose digests declare a different algorithm (and whose blob store is
keyed by that algorithm) fails with a missing-file error at the
`blobs/sha256/<hex>` path even though the digest string parses. -/
theorem c10_sha256_hardcoded (algo hex : Str)
    (halgo : algo.all (fun c => c ≠ ':') = true)
    (hhex : hex.all (fun c => c ≠ ':') = true) :
    splitColonGet1 (algo ++ ':' :: hex) = some hex ∧
    (∀ (fs : FS) (extracted_path today d : Str) (restM : List OCIDescriptor),
      fsLookup fs (extracted_path ++ str "/index.json") =
        some (FileData.idx ⟨⟨d⟩ :: restM⟩) →
      splitColonGet1 d = some hex →
      fsLookup fs (extracted_path ++ str "/blobs/sha256/" ++ hex) = none →
      isolate_layer fs extracted_path today =
        Except.error (IsoErr.missingFile
          (extracted_path ++ str "/blobs/sha256/" ++ hex))) := by
  constructor
  · unfold splitColonGet1
    rw [splitOnChar_append_sep ':' algo hex halgo, splitOnChar_no_sep ':' hex hhex]
    rfl
  · intro fs extracted_path today d restM hidx hd hmiss
    simp only [isolate_layer, get_digest_from_index, copy_layer_blob_to_tar,
      hidx, hd, hmiss]

/-- C10 witness: a layout declaring `sha512:abc` digests, with its blob store
keyed under `blobs/sha512/`, parses but fails with a missing-file error at
the hard-coded `blobs/sha256/abc` path. -/
theorem c10_sha256_hardcoded_witness :
    splitColonGet1 (str "sha512" ++ ':' :: str "abc") = some (str "abc") ∧
    isolate_layer
      [(str "img/index.json", FileData.idx ⟨[⟨str "sha512:abc"⟩]⟩),
       (str "img/blobs/sha512/abc", FileData.manifest ⟨[⟨str "sha512:def"⟩]⟩)]
      (str "img") (str "20240101") =
      Except.error (IsoErr.missingFile
        (str "img" ++ str "/blobs/sha256/" ++ str "abc")) :=
  ⟨(c10_sha256_hardcoded (str "sha512") (str "abc") (by decide) (by decide)).1,
   (c10_sha256_hardcoded (str "sha512") (str "abc") (by decide) (by decide)).2
     [(str "img/index.json", FileData.idx ⟨[⟨str "sha512:abc"⟩]⟩),
      (str "img/blobs/sha512/abc", FileData.manifest ⟨[⟨str "sha512:def"⟩]⟩)]
     (str "img") (str "20240101") (str "sha512:abc") []
     (by decide) (by decide) (by decide)⟩

/-- The `for future in as_completed(...)` result-processing loop of `main`
(`download_artifacts.py` lines 289-297), aggregated per task: each entry
pairs a task's destination with its download outcome
(`future.result()` or the exception it raised).  A failure is reported
(first component); a success is reported and immediately post-processed with
`decompress_artifact` (second component). -/
def process_results (results : List (Str × Except HttpErr Str)) :
    List Str × List (Str × DecompressResult) :=
  match results with
  | [] => ([], [])
  | (name, Except.error _) :: rest =>
      let r := process_results rest
      (name :: r.1, r.2)
  | (_, Except.ok data) :: rest =>
      let r := process_results rest
      (r.1, (data, decompress_artifact data) :: r.2)

theorem process_results_append (a b : List (Str × Except HttpErr Str)) :
    process_results (a ++ b) =
      ((process_results a).1 ++ (process_results b).1,
       (process_results a).2 ++ (process_results b).2) := by
  induction a with
  | nil => simp [process_results]
  | cons r rest ih =>
    rcases r with ⟨name, outcome⟩
    cases outcome with
    | error e => simp [process_results, ih]
    | ok data => simp [process_results, ih]

/-- C8: a failing task is reported as that task's failure and does not affect
its siblings — the run's outputs for the other tasks are the same as if the
failing task were processed on its own; extraction is performed exactly on
the tasks that succeeded, and every task is accounted for either as a failure
or as an extracted success. -/
theorem c8_partial_failure_tolerated :
    (∀ (a b : List (Str × Except HttpErr Str)) (name : Str) (e : HttpErr),
      process_results (a ++ (name, Except.error e) :: b) =
        ((process_results a).1 ++ name :: (process_results b).1,
         (process_results a).2 ++ (process_results b).2)) ∧
    (∀ results : List (Str × Except HttpErr Str),
      (process_results results).2 = results.filterMap fun r =>
        match r.2 with
        | Except.ok d => some (d, decompress_artifact d)
        | Except.error _ => none) ∧
    (∀ results : List (Str × Except HttpErr Str),
      (process_results results).1.length + (process_results results).2.length =
        results.length) := by
  refine ⟨?_, ?_, ?_⟩
  · intro a b name e
    rw [process_results_append]
    simp [process_results]
  · intro results
    induction results with
    | nil => rfl
    | cons r rest ih =>
      rcases r with ⟨name, outcome⟩
      cases outcome with
      | error e => simpa [process_results] using ih
      | ok data => simpa [process_results] using ih
  · intro results
    induction results with
    | nil => rfl
    | cons r rest ih =>
      rcases r with ⟨name, outcome⟩
      cases outcome with
      | error e =>
        have heq : process_results ((name, Except.error e) :: rest) =
            (name :: (process_results rest).1, (process_results rest).2) := rfl
        rw [heq]
        simp only [List.length_cons]
        omega
      | ok data =>
        have heq : process_results ((name, Except.ok data) :: rest) =
            ((process_results rest).1,
             (data, decompress_artifact data) :: (process_results rest).2) := rfl
        rw [heq]
        simp only [List.length_cons]
        omega

end DownloadFedora
